import Mathlib

/-!
Verification of the `puzzle_solution_argument` crate (`src/lib.rs`): a Schnorr
proof of knowledge of the discrete logarithm of a hash-derived commitment,
made non-interactive via a Fiat-Shamir challenge, with canonical byte export.

The Rust code is generic over an arkworks curve group `G : Group + CurveGroup`
and a hash `H : Digest`.  The shallow embedding below mirrors that genericity:
`GroupModel G` packages exactly the operations and contracts of the arkworks
traits that the crate uses (abelian addition, scalar multiplication by the
scalar field `ZMod r`, lawful equality, and the affine-coordinate map that is
`none` exactly on the group identity, as `AffineRepr::x()/y()` are).  Hash
functions are modelled as plain functions on byte lists (the `Digest` API's
`update` calls concatenate, so one function on the final input is faithful).

Machine bytes are `Nat`s kept below 256 by the masking operations themselves;
`serialize_uncompressed` on an arkworks prime-field element emits the canonical
(least non-negative) residue as fixed-length *little-endian* bytes, of length
`(bit-size of the modulus + 7) / 8` — modelled by `natToBytesLE`/`fieldByteLen`.
Fallible Rust paths return `RResult`, whose `crash` constructor models a Rust
panic (the out-of-bounds digest indexing in `compute_fiat_shamir_challenge`).
-/

/-- The only error variant the crate ever constructs:
`ark_serialize::SerializationError::InvalidData`.  The spec refers to its three
occurrences as `InvalidSolution` (failed opening check), `InvalidProof` (failed
verification on export) and a serialization error (no affine representation);
in the code all three are this one variant. -/
inductive RustError : Type
  | invalidData
deriving DecidableEq

/-- Result of a Rust call: a value, a typed recoverable error, or a panic
(`crash`).  `crash` models the out-of-bounds indexing panic that the digest
accesses `hash_out[1..32]` can raise; it is not a `Result` value in Rust. -/
inductive RResult (α : Type) : Type
  | ok (val : α)
  | err (e : RustError)
  | crash
deriving DecidableEq

/-- The `?` operator on `Result`, with panics propagated. -/
def RResult.bind {α β : Type} : RResult α → (α → RResult β) → RResult β
  | .ok a, f => f a
  | .err e, _ => .err e
  | .crash, _ => .crash

/-- Fixed-length little-endian byte encoding of a natural number, least
significant byte first — the byte order `serialize_uncompressed` uses for
arkworks prime-field elements (the crate's own comment notes the bytes must be
reversed to obtain the big-endian form Ethereum expects). -/
def natToBytesLE : Nat → Nat → List Nat
  | 0, _ => []
  | len + 1, n => n % 256 :: natToBytesLE len (n / 256)

/-- Bit length of `n` computed with a fuel argument so that it evaluates by
kernel reduction; `bitLenAux fuel n` is the bit length of `n` whenever
`n ≤ fuel` (see `bitLen_eq_log2`). -/
def bitLenAux : Nat → Nat → Nat
  | 0, _ => 0
  | fuel + 1, n => if n = 0 then 0 else bitLenAux fuel (n / 2) + 1

/-- Bit length of `n`: `Nat.log2 n + 1` for positive `n` (`bitLen_eq_log2`). -/
def bitLen (n : Nat) : Nat := bitLenAux n n

/-- Serialized byte length of an arkworks prime field with modulus `n`:
`(MODULUS_BIT_SIZE + 7) / 8` where `MODULUS_BIT_SIZE` is the bit size of `n`. -/
def fieldByteLen (n : Nat) : Nat := (bitLen n + 7) / 8

/-- A byte list read as a big-endian integer, as
`PrimeField::from_be_bytes_mod_order` does before reducing. -/
def beNat (bs : List Nat) : Nat := bs.foldl (fun acc b => acc * 256 + b) 0

/-- `PrimeField::from_be_bytes_mod_order`: big-endian bytes, reduced mod `r`. -/
def fromBeBytesModOrder (r : Nat) (bs : List Nat) : ZMod r := (beNat bs : ZMod r)

/-- The digest masking in `compute_fiat_shamir_challenge`:
`hash_254 = [hash_out[0] & 0x3f] ++ [hash_out[i] & 0xff | i in 1..32]`.
Bitwise AND with the all-low-bits masks `0x3f` and `0xff` is `% 64` and
`% 256`.  The caller guards `32 ≤ digest length`, under which `getD i 0` is
exactly `hash_out[i]`. -/
def maskDigest (digest : List Nat) : List Nat :=
  digest.getD 0 0 % 64 :: (List.range' 1 31).map (fun i => digest.getD i 0 % 256)

/-- The arkworks interface the crate consumes, with the trait contracts it
relies on: `G: Group + CurveGroup` is an additive abelian group whose scalar
field is `ZMod r` (prime order `r`) acting distributively and associatively;
`PartialEq` is lawful equality; `into_affine().x()/y()` (base field `ZMod p`)
return `None` exactly on the group identity (the point at infinity). -/
structure GroupModel (G : Type) where
  beq : G → G → Bool
  zero : G
  add : G → G → G
  r : Nat
  p : Nat
  smul : ZMod r → G → G
  toAffine : G → Option (ZMod p × ZMod p)
  beq_eq : ∀ a b : G, beq a b = true ↔ a = b
  addComm : ∀ a b : G, add a b = add b a
  smulAdd : ∀ (x y : ZMod r) (P : G), smul (x + y) P = add (smul x P) (smul y P)
  smulSmul : ∀ (x y : ZMod r) (P : G), smul x (smul y P) = smul (x * y) P
  affineNone : ∀ P : G, toAffine P = none ↔ P = zero

/-- `PuzzleSolutionProof { a: G, z: G::ScalarField }`. -/
structure PuzzleSolutionProof (G : Type) (r : Nat) where
  a : G
  z : ZMod r
deriving DecidableEq

/-- `serialize_scalar`: `serialize_uncompressed` of the scalar into a fresh
`Vec` (which cannot fail): the canonical residue, little-endian, at the scalar
field's byte length. -/
def serialize_scalar {G : Type} (M : GroupModel G) (s : ZMod M.r) : RResult (List Nat) :=
  .ok (natToBytesLE (fieldByteLen M.r) s.val)

/-- `serialize_point`: take the affine `x` and `y` (erroring with
`InvalidData` when the point has no affine representation), then
`serialize_uncompressed` each coordinate. -/
def serialize_point {G : Type} (M : GroupModel G) (P : G) : RResult (List Nat × List Nat) :=
  match M.toAffine P with
  | none => .err .invalidData
  | some (x, y) =>
      .ok (natToBytesLE (fieldByteLen M.p) x.val, natToBytesLE (fieldByteLen M.p) y.val)

/-- The `for element in input_elements` loop of `compute_fiat_shamir_challenge`:
serialize each point and append `x.reverse ++ y.reverse` (little-endian bytes
reversed to big-endian) to the running buffer, propagating the first error. -/
def transcriptBytes {G : Type} (M : GroupModel G) : List G → RResult (List Nat)
  | [] => .ok []
  | P :: rest =>
      RResult.bind (serialize_point M P) (fun xy =>
        RResult.bind (transcriptBytes M rest) (fun bs =>
          .ok (xy.1.reverse ++ xy.2.reverse ++ bs)))

/-- `compute_fiat_shamir_challenge`: hash the concatenated big-endian
coordinate bytes of the input points, mask the digest to 254 bits over its
first 32 bytes, and reduce big-endian mod the scalar field order.  The Rust
indexes `hash_out[0]` and `hash_out[1..32]` unconditionally, which panics
(`crash`) when the digest is shorter than 32 bytes. -/
def compute_fiat_shamir_challenge {G : Type} (M : GroupModel G)
    (H : List Nat → List Nat) (input_elements : List G) : RResult (ZMod M.r) :=
  RResult.bind (transcriptBytes M input_elements) (fun bs =>
    if 32 ≤ (H bs).length then
      .ok (fromBeBytesModOrder M.r (maskDigest (H bs)))
    else .crash)

/-- `PuzzleSolution::get_solution_commitment` with the struct fields
(`solutions`, `g`) passed explicitly, each solution string as its UTF-8 bytes:
feed each solution in order into one running hasher, read the digest as a
big-endian integer mod `r` to get `w`, and return `(w, g·w)`. -/
def get_solution_commitment {G : Type} (M : GroupModel G)
    (H : List Nat → List Nat) (g : G) (solutions : List (List Nat)) : ZMod M.r × G :=
  let w := fromBeBytesModOrder M.r (H (solutions.foldl (fun acc s => acc ++ s) []))
  (w, M.smul w g)

/-- `PuzzleSolution::get_solution_proof` with the struct field `g` and the
randomly drawn blinding scalar `rBlind` passed explicitly: check the opening
`g·w == solution_commitment` (else `InvalidData`), set `a = g·rBlind`, derive
the Fiat-Shamir challenge over `[g, solution_commitment, a]`, and answer
`z = w·e + rBlind`. -/
def get_solution_proof {G : Type} (M : GroupModel G) (H : List Nat → List Nat)
    (g : G) (w : ZMod M.r) (solution_commitment : G) (rBlind : ZMod M.r) :
    RResult (PuzzleSolutionProof G M.r) :=
  if M.beq (M.smul w g) solution_commitment then
    RResult.bind
      (compute_fiat_shamir_challenge M H [g, solution_commitment, M.smul rBlind g])
      (fun e => .ok ⟨M.smul rBlind g, w * e + rBlind⟩)
  else .err .invalidData

/-- `PuzzleSolutionProof::verify`: recompute the challenge over
`[g, solution_commitment, a]` and return `Ok(a + solution_commitment·e == g·z)`. -/
def PuzzleSolutionProof.verify {G : Type} (M : GroupModel G) (H : List Nat → List Nat)
    (pf : PuzzleSolutionProof G M.r) (g : G) (solution_commitment : G) : RResult Bool :=
  RResult.bind (compute_fiat_shamir_challenge M H [g, solution_commitment, pf.a])
    (fun e => .ok (M.beq (M.add pf.a (M.smul e solution_commitment)) (M.smul pf.z g)))

/-- `PuzzleSolutionProof::verify_and_export`: same challenge and equation check
as `verify`; on success serialize `a`, `g`, `solution_commitment` and `z` and
return `(ax, ay, gx, gy, wx, wy, z)`; on a failed check return `InvalidData`. -/
def PuzzleSolutionProof.verify_and_export {G : Type} (M : GroupModel G)
    (H : List Nat → List Nat) (pf : PuzzleSolutionProof G M.r)
    (g : G) (solution_commitment : G) :
    RResult (List Nat × List Nat × List Nat × List Nat × List Nat × List Nat × List Nat) :=
  RResult.bind (compute_fiat_shamir_challenge M H [g, solution_commitment, pf.a])
    (fun e =>
      if M.beq (M.add pf.a (M.smul e solution_commitment)) (M.smul pf.z g) then
        RResult.bind (serialize_point M pf.a) (fun axy =>
          RResult.bind (serialize_point M g) (fun gxy =>
            RResult.bind (serialize_point M solution_commitment) (fun wxy =>
              RResult.bind (serialize_scalar M pf.z) (fun zb =>
                .ok (axy.1, axy.2, gxy.1, gxy.2, wxy.1, wxy.2, zb)))))
      else .err .invalidData)

/-- Order of the scalar field of BN254 `G1`, the group the crate's tests
instantiate `G` with (`ark_bn254::G1Projective`). -/
def bn254ScalarOrder : Nat :=
  21888242871839275222246405745257275088548364400416034343698204186575808495617

/-- Concrete executable instance of the arkworks interface used for witnesses:
the additive group `ZMod 5` with scalar field `ZMod 5`, base field `ZMod 257`
(chosen so coordinates serialize to two bytes), and the affine map sending a
nonzero point `P` to `(P, 0)` and the identity to `none`. -/
def Mc : GroupModel (ZMod 5) where
  beq := fun a b => decide (a = b)
  zero := 0
  add := fun a b => a + b
  r := 5
  p := 257
  smul := fun x P => x * P
  toAffine := fun P => if P = 0 then none else some ((P.val : ZMod 257), 0)
  beq_eq := by intro a b; simp
  addComm := by intro a b; exact add_comm a b
  smulAdd := by intro x y P; exact add_mul x y P
  smulSmul := by intro x y P; exact (mul_assoc x y P).symm
  affineNone := by intro P; by_cases h : P = 0 <;> simp [h]

/-- Hash returning a 32-byte all-zero digest on every input (a legitimate
`Digest` instance shape: fixed-length output). -/
def Hzero : List Nat → List Nat := fun _ => List.replicate 32 0

/-- Hash returning a 32-byte all-`0xff` digest on every input. -/
def Hff : List Nat → List Nat := fun _ => List.replicate 32 255

/-- Hash returning a 20-byte digest on every input, the output length of e.g.
`Ripemd160 : Digest`. -/
def Hshort : List Nat → List Nat := fun _ => List.replicate 20 0

/-- Modelled from the spec's words (export tuple layout): the fixed-length
*big-endian* byte string of a value, most significant byte first — the byte
order the spec asserts for the exported fields.  Used only to compare the
spec's claimed layout against what the code emits. -/
def natToBytesBE (len n : Nat) : List Nat := (natToBytesLE len n).reverse

/-! ## Shared lemmas about the byte-level primitives -/

/-- `?` on an `Ok` value continues. -/
@[simp] theorem RResult.bind_ok {α β : Type} (a : α) (f : α → RResult β) :
    RResult.bind (.ok a) f = f a := rfl

/-- `?` on an `Err` propagates the error. -/
@[simp] theorem RResult.bind_err {α β : Type} (e : RustError) (f : α → RResult β) :
    RResult.bind (.err e) f = .err e := rfl

/-- A panic before the `?` propagates. -/
@[simp] theorem RResult.bind_crash {α β : Type} (f : α → RResult β) :
    RResult.bind (.crash : RResult α) f = .crash := rfl

/-- With enough fuel, `bitLenAux` computes `Nat.log2 n + 1` on positive `n`. -/
theorem bitLenAux_eq_log2 :
    ∀ fuel n : Nat, n ≤ fuel → bitLenAux fuel n = if n = 0 then 0 else Nat.log2 n + 1 := by
  intro fuel
  induction fuel with
  | zero =>
      intro n hn
      have : n = 0 := Nat.le_zero.mp hn
      simp [this, bitLenAux]
  | succ k ih =>
      intro n hn
      by_cases h0 : n = 0
      · simp [h0, bitLenAux]
      · have hrec : bitLenAux (k + 1) n = bitLenAux k (n / 2) + 1 := by
          simp [bitLenAux, h0]
        have hhalf : n / 2 ≤ k := by omega
        rw [hrec, ih (n / 2) hhalf]
        by_cases h1 : n / 2 = 0
        · have : n = 1 := by omega
          simp [h1, this, Nat.log2]
        · have h2 : 2 ≤ n := by omega
          have hlog : Nat.log2 n = Nat.log2 (n / 2) + 1 := by
            conv_lhs => rw [Nat.log2]
            simp [h2]
          simp only [h0, if_false, h1, hlog]

/-- `bitLen` agrees with the arkworks modulus bit size on positive moduli. -/
theorem bitLen_eq_log2 (n : Nat) (h : 0 < n) : bitLen n = Nat.log2 n + 1 := by
  rw [bitLen, bitLenAux_eq_log2 n n (Nat.le_refl n)]
  simp [Nat.pos_iff_ne_zero.mp h]

/-- `natToBytesLE` always emits exactly `len` bytes. -/
theorem natToBytesLE_length (len : Nat) : ∀ n : Nat, (natToBytesLE len n).length = len := by
  induction len with
  | zero => intro n; rfl
  | succ k ih => intro n; simp [natToBytesLE, ih]

/-- Folding the big-endian accumulator from `acc` shifts `acc` past the list. -/
theorem beNat_foldl (bs : List Nat) :
    ∀ acc : Nat, bs.foldl (fun a b => a * 256 + b) acc = acc * 256 ^ bs.length + beNat bs := by
  induction bs with
  | nil => intro acc; simp [beNat]
  | cons b bs ih =>
      intro acc
      have h1 : beNat (b :: bs) = b * 256 ^ bs.length + beNat bs := by
        show List.foldl _ (0 * 256 + b) bs = _
        rw [ih]
        ring
      simp only [List.foldl_cons, List.length_cons, h1]
      rw [ih]
      ring

/-- Big-endian value of a cons cell. -/
theorem beNat_cons (b : Nat) (bs : List Nat) :
    beNat (b :: bs) = b * 256 ^ bs.length + beNat bs := by
  show List.foldl _ (0 * 256 + b) bs = _
  rw [beNat_foldl]
  ring

/-- A list of bytes (each `< 256`) reads to a value below `256 ^ length`. -/
theorem beNat_lt (bs : List Nat) (h : ∀ b ∈ bs, b < 256) : beNat bs < 256 ^ bs.length := by
  induction bs with
  | nil => simp [beNat]
  | cons b bs ih =>
      rw [beNat_cons, List.length_cons]
      have hb : b + 1 ≤ 256 := h b (List.mem_cons_self b bs)
      have ht : beNat bs < 256 ^ bs.length := ih (fun x hx => h x (List.mem_cons_of_mem _ hx))
      calc b * 256 ^ bs.length + beNat bs
          < (b + 1) * 256 ^ bs.length := by
            rw [Nat.add_mul, Nat.one_mul]
            omega
        _ ≤ 256 * 256 ^ bs.length := Nat.mul_le_mul_right _ hb
        _ = 256 ^ (bs.length + 1) := by rw [pow_succ]; ring

/-- The masked digest has exactly 32 bytes. -/
theorem maskDigest_length (d : List Nat) : (maskDigest d).length = 32 := by
  simp [maskDigest]

/-- The masked digest, read as a big-endian integer, is below `2 ^ 254`:
the top two bits of its 32-byte big-endian form are cleared. -/
theorem maskDigest_lt (d : List Nat) : beNat (maskDigest d) < 2 ^ 254 := by
  have hhead : d.getD 0 0 % 64 + 1 ≤ 64 := Nat.mod_lt _ (by norm_num)
  have htail : ∀ b ∈ (List.range' 1 31).map (fun i => d.getD i 0 % 256), b < 256 := by
    intro b hb
    obtain ⟨i, _, rfl⟩ := List.mem_map.mp hb
    exact Nat.mod_lt _ (by norm_num)
  have hlen : ((List.range' 1 31).map (fun i => d.getD i 0 % 256)).length = 31 := by simp
  have ht := beNat_lt _ htail
  rw [hlen] at ht
  have hpow : (256 : Nat) ^ 31 = 2 ^ 248 := by norm_num
  rw [maskDigest, beNat_cons, hlen]
  rw [hpow] at ht ⊢
  have h254 : (2 : Nat) ^ 254 = 64 * 2 ^ 248 := by
    rw [show (254 : Nat) = 6 + 248 from rfl, pow_add]
    norm_num
  calc d.getD 0 0 % 64 * 2 ^ 248 + beNat ((List.range' 1 31).map (fun i => d.getD i 0 % 256))
      < d.getD 0 0 % 64 * 2 ^ 248 + 2 ^ 248 := by omega
    _ = (d.getD 0 0 % 64 + 1) * 2 ^ 248 := by ring
    _ ≤ 64 * 2 ^ 248 := Nat.mul_le_mul_right _ hhead
    _ = 2 ^ 254 := h254.symm

/-- Folding list append from `acc` is `acc ++` the concatenation of the list. -/
theorem foldl_append_eq_join (l : List (List Nat)) :
    ∀ acc : List Nat, l.foldl (fun a s => a ++ s) acc = acc ++ l.flatten := by
  induction l with
  | nil => intro acc; simp
  | cons s l ih =>
      intro acc
      simp only [List.foldl_cons, List.flatten_cons]
      rw [ih, List.append_assoc]

/-! ## Shared lemmas about serialization and the transcript -/

/-- `serialize_point` never panics. -/
theorem serialize_point_ne_crash {G : Type} (M : GroupModel G) (P : G) :
    serialize_point M P ≠ .crash := by
  unfold serialize_point
  match h : M.toAffine P with
  | none => simp
  | some (x, y) => simp

/-- A point other than the identity serializes to its affine coordinates'
little-endian bytes. -/
theorem serialize_point_ok {G : Type} (M : GroupModel G) (P : G) (h : P ≠ M.zero) :
    ∃ x y : ZMod M.p, M.toAffine P = some (x, y) ∧
      serialize_point M P =
        .ok (natToBytesLE (fieldByteLen M.p) x.val, natToBytesLE (fieldByteLen M.p) y.val) := by
  match haff : M.toAffine P with
  | none => exact absurd ((M.affineNone P).mp haff) h
  | some (x, y) =>
      exact ⟨x, y, rfl, by unfold serialize_point; rw [haff]⟩

/-- If every point in the transcript is non-identity, the byte concatenation
succeeds. -/
theorem transcriptBytes_ok {G : Type} (M : GroupModel G) (l : List G)
    (h : ∀ P ∈ l, P ≠ M.zero) : ∃ bs, transcriptBytes M l = .ok bs := by
  induction l with
  | nil => exact ⟨[], rfl⟩
  | cons P rest ih =>
      obtain ⟨x, y, _, hser⟩ := serialize_point_ok M P (h P (List.mem_cons_self P rest))
      obtain ⟨bs, hbs⟩ := ih (fun Q hQ => h Q (List.mem_cons_of_mem _ hQ))
      refine ⟨(natToBytesLE (fieldByteLen M.p) x.val).reverse ++
        (natToBytesLE (fieldByteLen M.p) y.val).reverse ++ bs, ?_⟩
      unfold transcriptBytes
      rw [hser, hbs]
      rfl

/-- If the transcript bytes were produced, every member point serialized. -/
theorem transcriptBytes_mem_ok {G : Type} (M : GroupModel G) :
    ∀ (l : List G) (bs : List Nat), transcriptBytes M l = .ok bs →
      ∀ P ∈ l, ∃ xy, serialize_point M P = .ok xy := by
  intro l
  induction l with
  | nil => intro bs _ P hP; exact absurd hP (List.not_mem_nil P)
  | cons Q rest ih =>
      intro bs hbs P hP
      unfold transcriptBytes at hbs
      match hser : serialize_point M Q with
      | .err e => rw [hser] at hbs; exact absurd hbs (by simp [RResult.bind])
      | .crash => exact absurd hser (serialize_point_ne_crash M Q)
      | .ok xy =>
          rw [hser] at hbs
          rcases List.mem_cons.mp hP with hPQ | hPrest
          · exact ⟨xy, hPQ ▸ hser⟩
          · match hrest : transcriptBytes M rest with
            | .err e => rw [hrest] at hbs; exact absurd hbs (by simp [RResult.bind])
            | .crash => rw [hrest] at hbs; exact absurd hbs (by simp [RResult.bind])
            | .ok bs2 => exact ih bs2 hrest P hPrest

/-- If some transcript point is the identity, the byte concatenation fails
with `InvalidData`. -/
theorem transcriptBytes_err {G : Type} (M : GroupModel G) :
    ∀ l : List G, (∃ P ∈ l, P = M.zero) → transcriptBytes M l = .err .invalidData := by
  intro l
  induction l with
  | nil => rintro ⟨P, hP, _⟩; exact absurd hP (List.not_mem_nil P)
  | cons Q rest ih =>
      rintro ⟨P, hP, hPzero⟩
      unfold transcriptBytes
      rcases List.mem_cons.mp hP with hPQ | hPrest
      · have : M.toAffine Q = none := (M.affineNone Q).mpr (hPQ ▸ hPzero)
        unfold serialize_point
        rw [this]
        rfl
      · match hser : serialize_point M Q with
        | .err e =>
            unfold serialize_point at hser
            match haff : M.toAffine Q with
            | none => rw [haff] at hser; cases hser; rfl
            | some (x, y) => rw [haff] at hser; cases hser
        | .crash => exact absurd hser (serialize_point_ne_crash M Q)
        | .ok xy => rw [ih ⟨P, hPrest, hPzero⟩]; rfl

/-- `transcriptBytes` never panics. -/
theorem transcriptBytes_ne_crash {G : Type} (M : GroupModel G) :
    ∀ l : List G, transcriptBytes M l ≠ .crash := by
  intro l
  induction l with
  | nil => simp [transcriptBytes]
  | cons Q rest ih =>
      unfold transcriptBytes
      match hser : serialize_point M Q with
      | .err e => simp [RResult.bind]
      | .crash => exact absurd hser (serialize_point_ne_crash M Q)
      | .ok xy =>
          match hrest : transcriptBytes M rest with
          | .err e => simp [RResult.bind]
          | .crash => exact absurd hrest ih
          | .ok bs => simp [RResult.bind]

/-- When the transcript serializes and the digest is long enough, the
challenge is the masked digest reduced mod `r`. -/
theorem challenge_ok {G : Type} (M : GroupModel G) (H : List Nat → List Nat)
    (l : List G) (bs : List Nat) (hbs : transcriptBytes M l = .ok bs)
    (hlen : 32 ≤ (H bs).length) :
    compute_fiat_shamir_challenge M H l = .ok (fromBeBytesModOrder M.r (maskDigest (H bs))) := by
  unfold compute_fiat_shamir_challenge
  rw [hbs]
  simp [RResult.bind, hlen]

/-- A successful challenge implies the transcript serialized. -/
theorem challenge_ok_transcript {G : Type} (M : GroupModel G) (H : List Nat → List Nat)
    (l : List G) (e : ZMod M.r) (h : compute_fiat_shamir_challenge M H l = .ok e) :
    ∃ bs, transcriptBytes M l = .ok bs := by
  unfold compute_fiat_shamir_challenge at h
  match hbs : transcriptBytes M l with
  | .ok bs => exact ⟨bs, rfl⟩
  | .err er => rw [hbs] at h; exact absurd h (by simp [RResult.bind])
  | .crash => rw [hbs] at h; exact absurd h (by simp [RResult.bind])

/-- With digests of at least 32 bytes the challenge never panics. -/
theorem challenge_ne_crash {G : Type} (M : GroupModel G) (H : List Nat → List Nat)
    (hH : ∀ bs, 32 ≤ (H bs).length) (l : List G) :
    compute_fiat_shamir_challenge M H l ≠ .crash := by
  unfold compute_fiat_shamir_challenge
  match hbs : transcriptBytes M l with
  | .ok bs => simp [RResult.bind, hH bs]
  | .err er => simp [RResult.bind]
  | .crash => exact absurd hbs (transcriptBytes_ne_crash M l)

/-- The algebra behind Schnorr completeness: with `A = g·rBlind`,
`W = g·w` and any challenge `e`, the verifier's left side `A + W·e` equals its
right side `g·(w·e + rBlind)`. -/
theorem schnorr_equation {G : Type} (M : GroupModel G) (g : G) (w e rBlind : ZMod M.r) :
    M.add (M.smul rBlind g) (M.smul e (M.smul w g)) = M.smul (w * e + rBlind) g := by
  have h1 : M.smul e (M.smul w g) = M.smul (w * e) g := by
    rw [M.smulSmul, mul_comm]
  rw [h1, M.smulAdd, M.addComm]

/-! ## Claims -/

/-- C1 (amended): completeness round trip.  For every group, hash whose
digests have at least 32 bytes, scalar `w` and blinding scalar `r`, *provided
the transcript points `g`, `W = g^w` and `A = g^r` are not the group identity*
(the identity has no affine encoding, so serialization would fail),
`get_solution_proof(w, W)` succeeds with proof `{A = g^r, z = w·e + r}` and
`verify` on that proof with the same `g`, `W`, `H` returns `Ok(true)`. -/
theorem C1_completeness_round_trip {G : Type} (M : GroupModel G) (H : List Nat → List Nat)
    (g : G) (w rBlind : ZMod M.r)
    (hg : g ≠ M.zero) (hW : M.smul w g ≠ M.zero) (hA : M.smul rBlind g ≠ M.zero)
    (hH : ∀ bs, 32 ≤ (H bs).length) :
    ∃ e : ZMod M.r,
      compute_fiat_shamir_challenge M H [g, M.smul w g, M.smul rBlind g] = .ok e ∧
      get_solution_proof M H g w (M.smul w g) rBlind = .ok ⟨M.smul rBlind g, w * e + rBlind⟩ ∧
      PuzzleSolutionProof.verify M H ⟨M.smul rBlind g, w * e + rBlind⟩ g (M.smul w g)
        = .ok true := by
  have hall : ∀ P ∈ [g, M.smul w g, M.smul rBlind g], P ≠ M.zero := by
    intro P hP
    rcases List.mem_cons.mp hP with h | hP
    · exact h ▸ hg
    rcases List.mem_cons.mp hP with h | hP
    · exact h ▸ hW
    rcases List.mem_cons.mp hP with h | hP
    · exact h ▸ hA
    · exact absurd hP (List.not_mem_nil P)
  obtain ⟨bs, hbs⟩ := transcriptBytes_ok M _ hall
  have hch : compute_fiat_shamir_challenge M H [g, M.smul w g, M.smul rBlind g]
      = .ok (fromBeBytesModOrder M.r (maskDigest (H bs))) :=
    challenge_ok M H _ bs hbs (hH bs)
  refine ⟨fromBeBytesModOrder M.r (maskDigest (H bs)), hch, ?_, ?_⟩
  · unfold get_solution_proof
    rw [(M.beq_eq (M.smul w g) (M.smul w g)).mpr rfl, hch]
    simp
  · have hver : PuzzleSolutionProof.verify M H
        ⟨M.smul rBlind g, w * fromBeBytesModOrder M.r (maskDigest (H bs)) + rBlind⟩
        g (M.smul w g)
        = RResult.bind (compute_fiat_shamir_challenge M H [g, M.smul w g, M.smul rBlind g])
            (fun e => .ok (M.beq (M.add (M.smul rBlind g) (M.smul e (M.smul w g)))
              (M.smul (w * fromBeBytesModOrder M.r (maskDigest (H bs)) + rBlind) g))) := rfl
    rw [hver, hch, RResult.bind_ok, schnorr_equation,
      (M.beq_eq _ _).mpr rfl]

/-- Witness for C1 at the concrete group model, `g = 1`, `w = r = 1` and the
constant all-zero 32-byte digest. -/
theorem C1_witness :
    ∃ e : ZMod Mc.r,
      compute_fiat_shamir_challenge Mc Hzero [1, Mc.smul 1 1, Mc.smul 1 1] = .ok e ∧
      get_solution_proof Mc Hzero 1 1 (Mc.smul 1 1) 1 = .ok ⟨Mc.smul 1 1, 1 * e + 1⟩ ∧
      PuzzleSolutionProof.verify Mc Hzero ⟨Mc.smul 1 1, 1 * e + 1⟩ 1 (Mc.smul 1 1)
        = .ok true :=
  C1_completeness_round_trip Mc Hzero 1 1 1 (by decide) (by decide) (by decide)
    (fun bs => by simp [Hzero])

/-- Counterexample to C1 as stated: with `w = 0` (a scalar the claim
quantifies over) the commitment `W = g^0` is the group identity, which has no
affine representation, so `get_solution_proof` returns an error instead of
succeeding. -/
theorem C1_counterexample :
    get_solution_proof Mc Hzero 1 0 (Mc.smul 0 1) 1 = .err .invalidData := by decide

/-- C2 (amended): Fiat-Shamir challenge masking.  The code masks the top two
bits of the digest's first byte and retains exactly the first 32 bytes — a
fixed, hardcoded mask, not parameterized per group — so the resulting
big-endian integer is strictly smaller than `2 ^ 254` (not necessarily smaller
than the scalar field modulus `r`); the challenge is that integer *reduced*
mod `r` by `from_be_bytes_mod_order`. -/
theorem C2_challenge_masking {G : Type} (M : GroupModel G) (H : List Nat → List Nat)
    (l : List G) (bs : List Nat) (hbs : transcriptBytes M l = .ok bs)
    (hlen : 32 ≤ (H bs).length) :
    compute_fiat_shamir_challenge M H l = .ok (fromBeBytesModOrder M.r (maskDigest (H bs))) ∧
    (maskDigest (H bs)).length = 32 ∧
    beNat (maskDigest (H bs)) < 2 ^ 254 :=
  ⟨challenge_ok M H l bs hbs hlen, maskDigest_length (H bs), maskDigest_lt (H bs)⟩

/-- Witness for C2 at the concrete model: the transcript of the single point
`1` serializes to `[0, 1, 0, 0]`. -/
theorem C2_witness :
    compute_fiat_shamir_challenge Mc Hzero [1]
      = .ok (fromBeBytesModOrder Mc.r (maskDigest (Hzero [0, 1, 0, 0]))) ∧
    (maskDigest (Hzero [0, 1, 0, 0])).length = 32 ∧
    beNat (maskDigest (Hzero [0, 1, 0, 0])) < 2 ^ 254 :=
  C2_challenge_masking Mc Hzero [1] [0, 1, 0, 0] (by decide) (by simp [Hzero])

/-- Counterexample to C2 as stated: an all-`0xff` 32-byte digest (produced by
the hash `Hff` on every transcript) masks to the big-endian integer
`2 ^ 254 - 1`, which is *not* strictly smaller than the scalar field modulus
of BN254, the group the crate instantiates. -/
theorem C2_counterexample :
    ¬ beNat (maskDigest (Hff [])) < bn254ScalarOrder := by decide

/-- C3 (confirmed): opening check.  `get_solution_proof` returns the error
(the occurrence the spec names `InvalidSolution`; in the code,
`SerializationError::InvalidData`) and no proof whenever `g^w ≠ W`; when
`g^w = W` the check passes and does not cause failure — the call proceeds to
the challenge derivation and proof construction. -/
theorem C3_opening_check {G : Type} (M : GroupModel G) (H : List Nat → List Nat)
    (g W : G) (w rBlind : ZMod M.r) :
    (M.smul w g ≠ W → get_solution_proof M H g w W rBlind = .err .invalidData) ∧
    (M.smul w g = W →
      get_solution_proof M H g w W rBlind =
        RResult.bind (compute_fiat_shamir_challenge M H [g, W, M.smul rBlind g])
          (fun e => .ok ⟨M.smul rBlind g, w * e + rBlind⟩)) := by
  constructor
  · intro hne
    unfold get_solution_proof
    have hfalse : M.beq (M.smul w g) W = false := by
      rcases Bool.eq_false_or_eq_true (M.beq (M.smul w g) W) with h | h
      · exact absurd ((M.beq_eq _ _).mp h) hne
      · exact h
    rw [hfalse]
    simp
  · intro heq
    unfold get_solution_proof
    rw [(M.beq_eq (M.smul w g) W).mpr heq]
    simp

/-- Witness for C3 at the concrete model: `g = 1`; with `w = 2` against the
commitment `1` (`g·2 = 2 ≠ 1`) the call errors; with `w = 1` against the
commitment `1` the opening check passes and the call proceeds. -/
theorem C3_witness :
    get_solution_proof Mc Hzero 1 2 1 1 = .err .invalidData ∧
    get_solution_proof Mc Hzero 1 1 1 1 =
      RResult.bind (compute_fiat_shamir_challenge Mc Hzero [1, 1, Mc.smul 1 1])
        (fun e => .ok ⟨Mc.smul 1 1, 1 * e + 1⟩) :=
  ⟨(C3_opening_check Mc Hzero 1 1 2 1).1 (by decide),
   (C3_opening_check Mc Hzero 1 1 1 1).2 (by decide)⟩

/-- C4 (confirmed): commitment derivation.  `get_solution_commitment` feeds
the solutions, in order, into one running hash state — equal to the single
digest `H(s1 ++ s2 ++ ... ++ sn)` over the concatenation, not a hash of
hashes — interprets it as a big-endian integer reduced mod the scalar field
order to obtain `w`, and returns `(w, g^w)`.  It is a pure total function of
the solution list and `g` (no error path, no randomness), so determinism under
repeated calls on the identical ordered list is inherent in its type. -/
theorem C4_commitment_derivation {G : Type} (M : GroupModel G) (H : List Nat → List Nat)
    (g : G) (solutions : List (List Nat)) :
    get_solution_commitment M H g solutions =
      (fromBeBytesModOrder M.r (H solutions.flatten),
       M.smul (fromBeBytesModOrder M.r (H solutions.flatten)) g) := by
  have h : solutions.foldl (fun acc s => acc ++ s) [] = solutions.flatten := by
    rw [foldl_append_eq_join]
    exact List.nil_append _
  simp only [get_solution_commitment, h]

/-- C5 (confirmed): `verify` is a boolean-valued check.  Whenever the
Fiat-Shamir challenge over the transcript `(g, W, A)` is derived (the
serialization of the transcript points succeeds and the digest is long
enough), `verify` returns `Ok` of exactly the truth value of
`A + W·e == g·z`; a failed equation check yields the value `false`, never an
error. -/
theorem C5_verify_boolean {G : Type} (M : GroupModel G) (H : List Nat → List Nat)
    (pf : PuzzleSolutionProof G M.r) (g W : G) (e : ZMod M.r)
    (hch : compute_fiat_shamir_challenge M H [g, W, pf.a] = .ok e) :
    PuzzleSolutionProof.verify M H pf g W
      = .ok (M.beq (M.add pf.a (M.smul e W)) (M.smul pf.z g)) ∧
    (M.beq (M.add pf.a (M.smul e W)) (M.smul pf.z g) = true ↔
      M.add pf.a (M.smul e W) = M.smul pf.z g) := by
  constructor
  · unfold PuzzleSolutionProof.verify
    rw [hch]
    rfl
  · exact M.beq_eq _ _

/-- Witness for C5 at the concrete model: proof `{a = 1, z = 0}` against
`g = W = 1` fails the equation, and `verify` returns the value `false`. -/
theorem C5_witness :
    PuzzleSolutionProof.verify Mc Hzero ⟨1, 0⟩ 1 1
      = .ok (Mc.beq (Mc.add 1 (Mc.smul 0 1)) (Mc.smul 0 1)) ∧
    (Mc.beq (Mc.add 1 (Mc.smul 0 1)) (Mc.smul 0 1) = true ↔
      Mc.add 1 (Mc.smul 0 1) = Mc.smul 0 1) :=
  C5_verify_boolean Mc Hzero ⟨1, 0⟩ 1 1 0 (by decide)

/-- C6 (confirmed): export atomicity.  Whenever the Fiat-Shamir challenge over
`(g, W, A)` is derived, `verify_and_export` checks the same verification
equation as `verify`; when the equation fails it returns the explicit error
(the occurrence the spec names `InvalidProof`; in the code
`SerializationError::InvalidData`) and emits no output bytes, and only when
the equation holds does it return encodings of the proof material. -/
theorem C6_export_atomicity {G : Type} (M : GroupModel G) (H : List Nat → List Nat)
    (pf : PuzzleSolutionProof G M.r) (g W : G) (e : ZMod M.r)
    (hch : compute_fiat_shamir_challenge M H [g, W, pf.a] = .ok e) :
    (M.add pf.a (M.smul e W) ≠ M.smul pf.z g →
      PuzzleSolutionProof.verify_and_export M H pf g W = .err .invalidData) ∧
    (M.add pf.a (M.smul e W) = M.smul pf.z g →
      ∃ t, PuzzleSolutionProof.verify_and_export M H pf g W = .ok t) := by
  obtain ⟨bs, hbs⟩ := challenge_ok_transcript M H _ e hch
  constructor
  · intro hne
    unfold PuzzleSolutionProof.verify_and_export
    rw [hch, RResult.bind_ok]
    have hfalse : M.beq (M.add pf.a (M.smul e W)) (M.smul pf.z g) = false := by
      rcases Bool.eq_false_or_eq_true (M.beq (M.add pf.a (M.smul e W)) (M.smul pf.z g))
        with h | h
      · exact absurd ((M.beq_eq _ _).mp h) hne
      · exact h
    rw [hfalse]
    simp
  · intro heq
    unfold PuzzleSolutionProof.verify_and_export
    rw [hch, RResult.bind_ok, (M.beq_eq _ _).mpr heq]
    obtain ⟨axy, ha⟩ := transcriptBytes_mem_ok M _ bs hbs pf.a (by simp)
    obtain ⟨gxy, hg2⟩ := transcriptBytes_mem_ok M _ bs hbs g (by simp)
    obtain ⟨wxy, hw2⟩ := transcriptBytes_mem_ok M _ bs hbs W (by simp)
    exact ⟨(axy.1, axy.2, gxy.1, gxy.2, wxy.1, wxy.2,
      natToBytesLE (fieldByteLen M.r) pf.z.val), by simp [ha, hg2, hw2, serialize_scalar]⟩

/-- Witness for C6 at the concrete model: `{a = 1, z = 0}` fails the equation
and exports the error with no bytes; `{a = 1, z = 1}` satisfies it and
exports a tuple. -/
theorem C6_witness :
    PuzzleSolutionProof.verify_and_export Mc Hzero ⟨1, 0⟩ 1 1 = .err .invalidData ∧
    ∃ t, PuzzleSolutionProof.verify_and_export Mc Hzero ⟨1, 1⟩ 1 1 = .ok t :=
  ⟨(C6_export_atomicity Mc Hzero ⟨1, 0⟩ 1 1 0 (by decide)).1 (by decide),
   (C6_export_atomicity Mc Hzero ⟨1, 1⟩ 1 1 0 (by decide)).2 (by decide)⟩

/-- C7 (amended): export tuple layout.  On a valid proof `verify_and_export`
returns the fields in the order `(A.x, A.y, g.x, g.y, W.x, W.y, z)`, each a
fixed-length byte string sized to the field's canonical byte length — but in
*little-endian* byte order (the raw `serialize_uncompressed` output, least
significant byte first), not big-endian as the spec asserts. -/
theorem C7_export_tuple_layout {G : Type} (M : GroupModel G) (H : List Nat → List Nat)
    (pf : PuzzleSolutionProof G M.r) (g W : G) (e : ZMod M.r)
    (ax ay gx gy wx wy : ZMod M.p)
    (hch : compute_fiat_shamir_challenge M H [g, W, pf.a] = .ok e)
    (heq : M.add pf.a (M.smul e W) = M.smul pf.z g)
    (ha : M.toAffine pf.a = some (ax, ay))
    (hgaff : M.toAffine g = some (gx, gy))
    (hwaff : M.toAffine W = some (wx, wy)) :
    PuzzleSolutionProof.verify_and_export M H pf g W =
      .ok (natToBytesLE (fieldByteLen M.p) ax.val, natToBytesLE (fieldByteLen M.p) ay.val,
           natToBytesLE (fieldByteLen M.p) gx.val, natToBytesLE (fieldByteLen M.p) gy.val,
           natToBytesLE (fieldByteLen M.p) wx.val, natToBytesLE (fieldByteLen M.p) wy.val,
           natToBytesLE (fieldByteLen M.r) pf.z.val) ∧
    (natToBytesLE (fieldByteLen M.p) ax.val).length = fieldByteLen M.p ∧
    (natToBytesLE (fieldByteLen M.p) ay.val).length = fieldByteLen M.p ∧
    (natToBytesLE (fieldByteLen M.p) gx.val).length = fieldByteLen M.p ∧
    (natToBytesLE (fieldByteLen M.p) gy.val).length = fieldByteLen M.p ∧
    (natToBytesLE (fieldByteLen M.p) wx.val).length = fieldByteLen M.p ∧
    (natToBytesLE (fieldByteLen M.p) wy.val).length = fieldByteLen M.p ∧
    (natToBytesLE (fieldByteLen M.r) pf.z.val).length = fieldByteLen M.r := by
  refine ⟨?_, natToBytesLE_length _ _, natToBytesLE_length _ _, natToBytesLE_length _ _,
    natToBytesLE_length _ _, natToBytesLE_length _ _, natToBytesLE_length _ _,
    natToBytesLE_length _ _⟩
  unfold PuzzleSolutionProof.verify_and_export
  rw [hch, RResult.bind_ok, (M.beq_eq _ _).mpr heq]
  simp [serialize_point, ha, hgaff, hwaff, serialize_scalar]

/-- Witness for C7 at the concrete model with base field `ZMod 257`
(coordinates serialize to two bytes). -/
theorem C7_witness :
    PuzzleSolutionProof.verify_and_export Mc Hzero ⟨1, 1⟩ 1 1 =
      .ok (natToBytesLE (fieldByteLen Mc.p) (1 : ZMod Mc.p).val,
           natToBytesLE (fieldByteLen Mc.p) (0 : ZMod Mc.p).val,
           natToBytesLE (fieldByteLen Mc.p) (1 : ZMod Mc.p).val,
           natToBytesLE (fieldByteLen Mc.p) (0 : ZMod Mc.p).val,
           natToBytesLE (fieldByteLen Mc.p) (1 : ZMod Mc.p).val,
           natToBytesLE (fieldByteLen Mc.p) (0 : ZMod Mc.p).val,
           natToBytesLE (fieldByteLen Mc.r) (1 : ZMod Mc.r).val) ∧
    (natToBytesLE (fieldByteLen Mc.p) (1 : ZMod Mc.p).val).length = fieldByteLen Mc.p ∧
    (natToBytesLE (fieldByteLen Mc.p) (0 : ZMod Mc.p).val).length = fieldByteLen Mc.p ∧
    (natToBytesLE (fieldByteLen Mc.p) (1 : ZMod Mc.p).val).length = fieldByteLen Mc.p ∧
    (natToBytesLE (fieldByteLen Mc.p) (0 : ZMod Mc.p).val).length = fieldByteLen Mc.p ∧
    (natToBytesLE (fieldByteLen Mc.p) (1 : ZMod Mc.p).val).length = fieldByteLen Mc.p ∧
    (natToBytesLE (fieldByteLen Mc.p) (0 : ZMod Mc.p).val).length = fieldByteLen Mc.p ∧
    (natToBytesLE (fieldByteLen Mc.r) (1 : ZMod Mc.r).val).length = fieldByteLen Mc.r :=
  C7_export_tuple_layout Mc Hzero ⟨1, 1⟩ 1 1 0 1 0 1 0 1 0
    (by decide) (by decide) (by decide) (by decide) (by decide)

/-- Counterexample to C7 as stated: at the concrete model the first exported
field (`A.x` with value 1, field byte length 2) is the little-endian string
`[1, 0]`, not the big-endian string `[0, 1]` the claim asserts. -/
theorem C7_counterexample :
    PuzzleSolutionProof.verify_and_export Mc Hzero ⟨1, 1⟩ 1 1 =
      .ok ([1, 0], [0, 0], [1, 0], [0, 0], [1, 0], [0, 0], [1]) ∧
    ([1, 0] : List Nat) ≠ natToBytesBE (fieldByteLen Mc.p) (1 : ZMod Mc.p).val :=
  ⟨rfl, by decide⟩

/-- `?` cannot introduce a panic: if the bound computation does not panic and
the continuation never panics, the whole expression does not panic. -/
theorem RResult.bind_ne_crash {α β : Type} (x : RResult α) (f : α → RResult β)
    (hx : x ≠ .crash) (hf : ∀ a, f a ≠ .crash) : RResult.bind x f ≠ .crash := by
  match x with
  | .ok a => exact hf a
  | .err e => simp
  | .crash => exact absurd rfl hx

/-- C8 (amended): no uncontrolled crashes — *for hash functions whose digests
have at least 32 bytes*.  Under that digest-length assumption every operation
(challenge derivation, prove, verify, verify-and-export, point serialization)
returns a normal result or a typed recoverable error value, never a panic; the
commitment derivation is a total function by its type.  (The restriction is
forced: the challenge derivation indexes the digest at the fixed positions
`0..32`, which goes out of bounds on a shorter digest — see the
counterexample.) -/
theorem C8_no_uncontrolled_crash {G : Type} (M : GroupModel G) (H : List Nat → List Nat)
    (hH : ∀ bs, 32 ≤ (H bs).length) (l : List G) (g W P : G)
    (pf : PuzzleSolutionProof G M.r) (w rBlind : ZMod M.r) :
    compute_fiat_shamir_challenge M H l ≠ .crash ∧
    get_solution_proof M H g w W rBlind ≠ .crash ∧
    PuzzleSolutionProof.verify M H pf g W ≠ .crash ∧
    PuzzleSolutionProof.verify_and_export M H pf g W ≠ .crash ∧
    serialize_point M P ≠ .crash := by
  refine ⟨challenge_ne_crash M H hH l, ?_, ?_, ?_, serialize_point_ne_crash M P⟩
  · unfold get_solution_proof
    rcases Bool.eq_false_or_eq_true (M.beq (M.smul w g) W) with h | h
    · rw [h]
      simp only [if_true]
      exact RResult.bind_ne_crash _ _ (challenge_ne_crash M H hH _) (fun e => by simp)
    · rw [h]
      simp
  · unfold PuzzleSolutionProof.verify
    exact RResult.bind_ne_crash _ _ (challenge_ne_crash M H hH _) (fun e => by simp)
  · unfold PuzzleSolutionProof.verify_and_export
    refine RResult.bind_ne_crash _ _ (challenge_ne_crash M H hH _) ?_
    intro e
    rcases Bool.eq_false_or_eq_true (M.beq (M.add pf.a (M.smul e W)) (M.smul pf.z g))
      with h | h
    · rw [h]
      simp only [if_true]
      refine RResult.bind_ne_crash _ _ (serialize_point_ne_crash M pf.a) ?_
      intro axy
      refine RResult.bind_ne_crash _ _ (serialize_point_ne_crash M g) ?_
      intro gxy
      refine RResult.bind_ne_crash _ _ (serialize_point_ne_crash M W) ?_
      intro wxy
      refine RResult.bind_ne_crash _ _ (by simp [serialize_scalar]) ?_
      intro zb
      simp
    · rw [h]
      simp

/-- Witness for C8 at the concrete model with the 32-byte constant digest. -/
theorem C8_witness :
    compute_fiat_shamir_challenge Mc Hzero [1] ≠ .crash ∧
    get_solution_proof Mc Hzero 1 1 1 1 ≠ .crash ∧
    PuzzleSolutionProof.verify Mc Hzero ⟨1, 1⟩ 1 1 ≠ .crash ∧
    PuzzleSolutionProof.verify_and_export Mc Hzero ⟨1, 1⟩ 1 1 ≠ .crash ∧
    serialize_point Mc 1 ≠ .crash :=
  C8_no_uncontrolled_crash Mc Hzero (fun bs => by simp [Hzero]) [1] 1 1 1 ⟨1, 1⟩ 1 1

/-- Counterexample to C8 as stated: with a hash of 20-byte digests (e.g.
`Ripemd160 : Digest`), the challenge derivation's fixed-index accesses
`hash_out[20..32]` go out of bounds and the whole verification call panics
instead of returning a typed error. -/
theorem C8_counterexample :
    compute_fiat_shamir_challenge Mc Hshort [1] = .crash ∧
    PuzzleSolutionProof.verify Mc Hshort ⟨1, 1⟩ 1 1 = .crash := by decide

/-- C9 (confirmed): point encoding failure.  `serialize_point` returns the
serialization error exactly when the point has no valid affine representation
— the group identity — and otherwise returns the coordinate byte strings;
consequently `verify`, `verify_and_export` and `get_solution_proof` return
this error whenever any transcript point (`g`, `W`, or `A`) is the identity
element. -/
theorem C9_point_encoding_failure {G : Type} (M : GroupModel G) (H : List Nat → List Nat)
    (P g W : G) (pf : PuzzleSolutionProof G M.r) (w rBlind : ZMod M.r) :
    (serialize_point M P = .err .invalidData ↔ P = M.zero) ∧
    (P ≠ M.zero → ∃ x y : ZMod M.p, M.toAffine P = some (x, y) ∧
      serialize_point M P = .ok (natToBytesLE (fieldByteLen M.p) x.val,
        natToBytesLE (fieldByteLen M.p) y.val)) ∧
    (g = M.zero ∨ W = M.zero ∨ pf.a = M.zero →
      PuzzleSolutionProof.verify M H pf g W = .err .invalidData ∧
      PuzzleSolutionProof.verify_and_export M H pf g W = .err .invalidData) ∧
    (g = M.zero ∨ W = M.zero ∨ M.smul rBlind g = M.zero →
      get_solution_proof M H g w W rBlind = .err .invalidData) := by
  refine ⟨?_, serialize_point_ok M P, ?_, ?_⟩
  · constructor
    · intro herr
      match haff : M.toAffine P with
      | none => exact (M.affineNone P).mp haff
      | some (x, y) =>
          unfold serialize_point at herr
          rw [haff] at herr
          cases herr
    · intro hz
      unfold serialize_point
      rw [(M.affineNone P).mpr hz]
  · intro hzero
    have hmem : ∃ Q ∈ [g, W, pf.a], Q = M.zero := by
      rcases hzero with h | h | h
      · exact ⟨g, by simp, h⟩
      · exact ⟨W, by simp, h⟩
      · exact ⟨pf.a, by simp, h⟩
    have hch : compute_fiat_shamir_challenge M H [g, W, pf.a] = .err .invalidData := by
      unfold compute_fiat_shamir_challenge
      rw [transcriptBytes_err M _ hmem]
      rfl
    constructor
    · unfold PuzzleSolutionProof.verify
      rw [hch]
      rfl
    · unfold PuzzleSolutionProof.verify_and_export
      rw [hch]
      rfl
  · intro hzero
    have hmem : ∃ Q ∈ [g, W, M.smul rBlind g], Q = M.zero := by
      rcases hzero with h | h | h
      · exact ⟨g, by simp, h⟩
      · exact ⟨W, by simp, h⟩
      · exact ⟨M.smul rBlind g, by simp, h⟩
    have hch : compute_fiat_shamir_challenge M H [g, W, M.smul rBlind g]
        = .err .invalidData := by
      unfold compute_fiat_shamir_challenge
      rw [transcriptBytes_err M _ hmem]
      rfl
    unfold get_solution_proof
    rcases Bool.eq_false_or_eq_true (M.beq (M.smul w g) W) with h | h
    · rw [h]
      simp only [if_true]
      rw [hch]
      rfl
    · rw [h]
      simp

/-- Witness for C9 at the concrete model: the nonzero point `1` serializes to
its coordinates, and with the generator replaced by the identity (`g = 0`),
`verify`, `verify_and_export` and `get_solution_proof` all return the error. -/
theorem C9_witness :
    (∃ x y : ZMod Mc.p, Mc.toAffine 1 = some (x, y) ∧
      serialize_point Mc 1 = .ok (natToBytesLE (fieldByteLen Mc.p) x.val,
        natToBytesLE (fieldByteLen Mc.p) y.val)) ∧
    (PuzzleSolutionProof.verify Mc Hzero ⟨1, 1⟩ 0 1 = .err .invalidData ∧
      PuzzleSolutionProof.verify_and_export Mc Hzero ⟨1, 1⟩ 0 1 = .err .invalidData) ∧
    get_solution_proof Mc Hzero 0 1 1 1 = .err .invalidData :=
  ⟨(C9_point_encoding_failure Mc Hzero 1 0 1 ⟨1, 1⟩ 1 1).2.1 (by decide),
   (C9_point_encoding_failure Mc Hzero 1 0 1 ⟨1, 1⟩ 1 1).2.2.1 (Or.inl rfl),
   (C9_point_encoding_failure Mc Hzero 1 0 1 ⟨1, 1⟩ 1 1).2.2.2 (Or.inl rfl)⟩

/-- C10 (confirmed): agreement of the two verifiers.  For every proof,
generator and commitment, `verify_and_export` succeeds exactly when `verify`
returns `Ok(true)`; it returns the error exactly when `verify` returns
`Ok(false)` or the error (both derive the same Fiat-Shamir challenge over
`(g, W, A)` and check the same equation); and it panics exactly when `verify`
panics. -/
theorem C10_verifier_agreement {G : Type} (M : GroupModel G) (H : List Nat → List Nat)
    (pf : PuzzleSolutionProof G M.r) (g W : G) :
    ((∃ t, PuzzleSolutionProof.verify_and_export M H pf g W = .ok t) ↔
      PuzzleSolutionProof.verify M H pf g W = .ok true) ∧
    (PuzzleSolutionProof.verify_and_export M H pf g W = .err .invalidData ↔
      (PuzzleSolutionProof.verify M H pf g W = .ok false ∨
        PuzzleSolutionProof.verify M H pf g W = .err .invalidData)) ∧
    (PuzzleSolutionProof.verify_and_export M H pf g W = .crash ↔
      PuzzleSolutionProof.verify M H pf g W = .crash) := by
  unfold PuzzleSolutionProof.verify_and_export PuzzleSolutionProof.verify
  cases hch : compute_fiat_shamir_challenge M H [g, W, pf.a] with
  | ok e =>
      simp only [RResult.bind_ok]
      rcases Bool.eq_false_or_eq_true (M.beq (M.add pf.a (M.smul e W)) (M.smul pf.z g))
        with hb | hb
      · obtain ⟨bs, hbs⟩ := challenge_ok_transcript M H _ e hch
        obtain ⟨axy, ha⟩ := transcriptBytes_mem_ok M _ bs hbs pf.a (by simp)
        obtain ⟨gxy, hg2⟩ := transcriptBytes_mem_ok M _ bs hbs g (by simp)
        obtain ⟨wxy, hw2⟩ := transcriptBytes_mem_ok M _ bs hbs W (by simp)
        rw [hb]
        simp [ha, hg2, hw2, serialize_scalar]
      · rw [hb]
        simp
  | err er =>
      cases er
      simp
  | crash => simp
